import Mathlib

/-!
# hello_mpi.c : the identity reporter

A shallow embedding of `src/hello_mpi.c`.  The program is a straight line of
six calls into its environment (the MPI runtime, the C library and the
operating system).  The environment is a parameter `Env`; every external call
is a function that takes the trace of calls made so far and returns its result
together with the extended trace; `main` sequences them exactly as the source
does.

The array `hostname` is a list of 256 bytes.  `printf` reads its `%s`
argument up to the first null byte; when the array holds none the read would
leave the array, the text is not defined by the program, and the trace
records `none` for that write.
-/

namespace HelloMpi

/-! ## The environment -/

/-- The terminating null byte of a C string. -/
def NUL : Char := Char.ofNat 0

/-- Everything `main` obtains from outside.
* `initStatus`, `finalizeStatus`: the `int` returned by `MPI_Init` / `MPI_Finalize`
  (`MPI_SUCCESS` is `0`);
* `rank`, `size`: the `int` stored by `MPI_Comm_rank` / `MPI_Comm_size`;
* `hostName`: the name of the machine (its characters, terminator excluded);
* `truncTerminated`: what `gethostname` does with a name that does not fit:
  POSIX leaves it unspecified whether the truncated result is null-terminated
  (`true`: it is, as in musl; `false`: it is not, as in glibc);
* `uninit`: the indeterminate initial bytes of the automatic array `hostname`. -/
structure Env where
  initStatus : Int
  rank : Int
  size : Int
  hostName : List Char
  truncTerminated : Bool
  uninit : Nat → Char
  finalizeStatus : Int

/-- Arguments of a `printf` call: an `int`, or a pointer to a `char` array
(given by the content of the array). -/
inductive Arg where
  | int (v : Int)
  | str (buf : List Char)

/-- One external call of the program, as recorded in the trace.  A `printf`
records the text it wrote to standard output; `none` when that text is not
defined (see `vprintf`). -/
inductive Op where
  | MPI_Init
  | MPI_Comm_rank
  | MPI_Comm_size
  | gethostname
  | printf (text : Option (List Char))
  | MPI_Finalize
  deriving DecidableEq

/-- The observable state threaded through the calls: the trace so far. -/
structure World where
  trace : List Op

/-- What a finished run of `main` leaves behind: the trace of its external
calls, in order, and the value `main` returned (the process exit code). -/
structure Run where
  trace : List Op
  exit : Int

/-! ## The C library: `printf` and `gethostname` -/

/-- The digit loop of an unsigned decimal conversion: peel off the last digit
until the number is below ten.  `fuel` bounds the number of iterations. -/
def utoa : Nat → Nat → List Char → List Char
  | 0, _, acc => acc
  | fuel + 1, n, acc =>
    if n < 10 then Nat.digitChar n :: acc
    else utoa fuel (n / 10) (Nat.digitChar (n % 10) :: acc)

/-- Decimal digits of a natural number, most significant first. -/
def decimalNat (n : Nat) : List Char := utoa (n + 1) n []

/-- The conversion `%d`: signed decimal, a leading `-` for a negative value. -/
def fmt_d : Int → List Char
  | Int.ofNat n => decimalNat n
  | Int.negSucc n => '-' :: decimalNat (n + 1)

/-- Reading a C string out of a `char` array: the characters before the first
null byte; `none` when the array holds no null byte (the read would run past
the end of the array, which C leaves undefined). -/
def cstr : List Char → Option (List Char)
  | [] => none
  | c :: cs => if c = NUL then some [] else (cstr cs).map (fun s => c :: s)

/-- The text `printf` produces from a format and its arguments.  Supports the
directives `%d`, `%s` and `%%`; `none` when a directive is unknown, does not
match its argument, has no argument, or when a `%s` argument is not
null-terminated. -/
def vprintf : List Char → List Arg → Option (List Char)
  | [], _ => some []
  | '%' :: 'd' :: rest, Arg.int v :: args =>
    (vprintf rest args).map (fun out => fmt_d v ++ out)
  | '%' :: 's' :: rest, Arg.str buf :: args =>
    match cstr buf with
    | none => none
    | some s => (vprintf rest args).map (fun out => s ++ out)
  | '%' :: '%' :: rest, args =>
    (vprintf rest args).map (fun out => '%' :: out)
  | '%' :: _, _ => none
  | c :: rest, args => (vprintf rest args).map (fun out => c :: out)

/-- The call `printf(format, args...)`: one write to standard output. -/
def printf (format : List Char) (args : List Arg) (w : World) : Unit × World :=
  ((), ⟨w.trace ++ [Op.printf (vprintf format args)]⟩)

/-- The bytes `gethostname(name, len)` stores: the host name with its
terminator when that fits in `len` bytes; otherwise the name truncated to
`len` bytes, null-terminated or not as the environment decides. -/
def gethostnameBytes (env : Env) (len : Nat) : List Char :=
  if env.hostName.length + 1 ≤ len then env.hostName ++ [NUL]
  else if env.truncTerminated then
    match len with
    | 0 => []
    | k + 1 => env.hostName.take k ++ [NUL]
  else env.hostName.take len

/-- The call `gethostname(name, len)`: stores the bytes at the start of the
array `name`, leaving the rest of the array as it was.  Returns the array;
the status it returns is not modelled (the source discards it). -/
def gethostname (env : Env) (name : List Char) (len : Nat) (w : World) :
    List Char × World :=
  let stored := gethostnameBytes env len
  (stored ++ name.drop stored.length, ⟨w.trace ++ [Op.gethostname]⟩)

/-! ## The MPI runtime -/

/-- The call `MPI_Init(&argc, &argv)`: returns the runtime's status. -/
def MPI_Init (env : Env) (w : World) : Int × World :=
  (env.initStatus, ⟨w.trace ++ [Op.MPI_Init]⟩)

/-- The call `MPI_Comm_rank(MPI_COMM_WORLD, &world_rank)`: the value stored
through the pointer. -/
def MPI_Comm_rank (env : Env) (w : World) : Int × World :=
  (env.rank, ⟨w.trace ++ [Op.MPI_Comm_rank]⟩)

/-- The call `MPI_Comm_size(MPI_COMM_WORLD, &world_size)`: the value stored
through the pointer. -/
def MPI_Comm_size (env : Env) (w : World) : Int × World :=
  (env.size, ⟨w.trace ++ [Op.MPI_Comm_size]⟩)

/-- The call `MPI_Finalize()`: returns the runtime's status. -/
def MPI_Finalize (env : Env) (w : World) : Int × World :=
  (env.finalizeStatus, ⟨w.trace ++ [Op.MPI_Finalize]⟩)

/-! ## The program -/

/-- The format string of the `printf` call in `main`. -/
def FORMAT : List Char :=
  "Hello from rank %d out of %d processors on %s\n".toList

/-- An automatic `char` array of `n` bytes before anything is stored in it. -/
def uninitArray (env : Env) (n : Nat) : List Char :=
  (List.range n).map env.uninit

/-- The function `main` of `hello_mpi.c`, statement by statement.  The
values returned by `MPI_Init`, `printf` and `MPI_Finalize` are bound and
dropped, as in the source. -/
def main (env : Env) : Run :=
  let w0 : World := ⟨[]⟩
  let r1 := MPI_Init env w0
  let r2 := MPI_Comm_rank env r1.2
  let world_rank := r2.1
  let r3 := MPI_Comm_size env r2.2
  let world_size := r3.1
  let hostname0 := uninitArray env 256
  let r4 := gethostname env hostname0 256 r3.2
  let hostname := r4.1
  let r5 := printf FORMAT [Arg.int world_rank, Arg.int world_size, Arg.str hostname] r4.2
  let r6 := MPI_Finalize env r5.2
  ⟨r6.2.trace, 0⟩

/-! ## Observations on a run -/

/-- The writes to standard output recorded in a trace, in order. -/
def writes : List Op → List (Option (List Char))
  | [] => []
  | Op.printf text :: ops => text :: writes ops
  | _ :: ops => writes ops

/-- The output channels a process can write to. -/
inductive Channel where
  | stdout
  | stderr
  deriving DecidableEq

/-- The channel an external call writes to, when it writes at all: `printf`
writes to standard output, the other five calls of the program write
nothing. -/
def outputChannel : Op → Option Channel
  | Op.printf _ => some Channel.stdout
  | _ => none

/-- The writes to standard output of a run. -/
def stdout (run : Run) : List (Option (List Char)) := writes run.trace

/-- The content of the array `hostname` when `printf` is called. -/
def hostBuffer (env : Env) : List Char :=
  (gethostname env (uninitArray env 256) 256 ⟨[]⟩).1

/-- The name returned by the host-name query: the C string held by
`hostname`, when the array holds one. -/
def returnedName (env : Env) : Option (List Char) := cstr (hostBuffer env)

/-- The identity line for a rank, a size and a host name, terminator
included: the shape the format string prescribes. -/
def identityLine (r n : Int) (h : List Char) : List Char :=
  "Hello from rank ".toList ++ fmt_d r ++ " out of ".toList ++ fmt_d n ++
    " processors on ".toList ++ h ++ "\n".toList

/-- The environment `env` with the statuses of `MPI_Init` and `MPI_Finalize`
replaced by `a` and `b`. -/
def withStatus (env : Env) (a b : Int) : Env :=
  ⟨a, env.rank, env.size, env.hostName, env.truncTerminated, env.uninit, b⟩

/-- The host name of the end-to-end scenario. -/
def node01 : List Char := "node01".toList

/-- A process on host `node01` with the given rank and size, in an environment
where every call succeeds. -/
def node01Env (r n : Int) : Env := ⟨0, r, n, node01, false, fun _ => 'x', 0⟩

/-- A process of rank 0 in a group of size 1 on host `node01`, for which
`MPI_Init` returns the failure status `1`. -/
def initFailsEnv : Env := ⟨1, 0, 1, node01, false, fun _ => 'x', 0⟩

/-- A process of rank 0 in a group of size 1 on a machine whose name is `k`
letters `a`; `t` tells whether the environment terminates a truncated name. -/
def longNameEnv (k : Nat) (t : Bool) : Env :=
  ⟨0, 0, 1, List.replicate k 'a', t, fun _ => 'x', 0⟩

/-- Three processes on host `node01`, ranks 2, 0 and 1 of 3, in the order
they run. -/
def groupOfThree : List Env := [node01Env 2 3, node01Env 0 3, node01Env 1 3]

/-- A process of rank -1 in a group of size -2 on host `node01`: values no
MPI runtime should hand out. -/
def outOfRangeEnv : Env := node01Env (-1) (-2)

/-- The value of a decimal digit character. -/
def digitVal (c : Char) : Nat := c.toNat - 48

/-- Reading a string of decimal digits back as a number. -/
def decValue (l : List Char) : Nat := l.foldl (fun a c => 10 * a + digitVal c) 0

/-- The lines written by a group of processes, one run of `main` per member,
in the order the members run. -/
def groupOutput (envs : List Env) : List (Option (List Char)) :=
  (envs.map (fun env => stdout (main env))).flatten


/-! ## Reading C strings -/

theorem cstr_append_NUL (h rest : List Char) (hn : NUL ∉ h) :
    cstr (h ++ NUL :: rest) = some h := by
  induction h with
  | nil => simp [cstr]
  | cons c cs ih =>
    have hc : c ≠ NUL := fun e => hn (e ▸ List.mem_cons_self _ _)
    have hcs : NUL ∉ cs := fun m => hn (List.mem_cons_of_mem _ m)
    simp [cstr, hc, ih hcs]

theorem cstr_eq_none (l : List Char) (hn : NUL ∉ l) : cstr l = none := by
  induction l with
  | nil => rfl
  | cons c cs ih =>
    have hc : c ≠ NUL := fun e => hn (e ▸ List.mem_cons_self _ _)
    have hcs : NUL ∉ cs := fun m => hn (List.mem_cons_of_mem _ m)
    simp [cstr, hc, ih hcs]

/-! ## The run of `main` -/

theorem vprintf_FORMAT (r n : Int) (buf : List Char) :
    vprintf FORMAT [Arg.int r, Arg.int n, Arg.str buf] =
      (cstr buf).map (identityLine r n) := by
  cases hb : cstr buf <;> simp [FORMAT, vprintf, identityLine, hb]

theorem main_trace (env : Env) :
    (main env).trace =
      [Op.MPI_Init, Op.MPI_Comm_rank, Op.MPI_Comm_size, Op.gethostname,
        Op.printf ((returnedName env).map (identityLine env.rank env.size)),
        Op.MPI_Finalize] := by
  unfold returnedName
  rw [← vprintf_FORMAT]
  rfl

theorem main_stdout (env : Env) :
    stdout (main env) = [(returnedName env).map (identityLine env.rank env.size)] := by
  rw [stdout, main_trace]
  rfl

/-! ## Decimal conversion -/

theorem digitChar_isDigit (d : Nat) (h : d < 10) : (Nat.digitChar d).isDigit = true := by
  interval_cases d <;> rfl

theorem digitVal_digitChar (d : Nat) (h : d < 10) : digitVal (Nat.digitChar d) = d := by
  interval_cases d <;> rfl

theorem utoa_acc (fuel n : Nat) (acc : List Char) :
    utoa fuel n acc = utoa fuel n [] ++ acc := by
  induction fuel generalizing n acc with
  | zero => simp [utoa]
  | succ fuel ih =>
    simp only [utoa]
    split
    · simp
    · rw [ih (n / 10) (Nat.digitChar (n % 10) :: acc), ih (n / 10) [Nat.digitChar (n % 10)]]
      simp

theorem utoa_isDigit (fuel n : Nat) : ∀ c ∈ utoa fuel n [], c.isDigit = true := by
  induction fuel generalizing n with
  | zero => simp [utoa]
  | succ fuel ih =>
    intro c hc
    simp only [utoa] at hc
    split at hc
    · rename_i hlt
      simp only [List.mem_singleton] at hc
      subst hc
      exact digitChar_isDigit n hlt
    · rw [utoa_acc] at hc
      rcases List.mem_append.1 hc with h1 | h1
      · exact ih _ c h1
      · simp only [List.mem_singleton] at h1
        subst h1
        exact digitChar_isDigit _ (Nat.mod_lt _ (by norm_num))

theorem decValue_append_singleton (l : List Char) (c : Char) :
    decValue (l ++ [c]) = 10 * decValue l + digitVal c := by
  simp [decValue, List.foldl_append]

theorem decValue_utoa (fuel n : Nat) (h : n < fuel) : decValue (utoa fuel n []) = n := by
  induction fuel generalizing n with
  | zero => omega
  | succ fuel ih =>
    simp only [utoa]
    split
    · rename_i hlt
      simp [decValue, digitVal_digitChar n hlt]
    · rw [utoa_acc, decValue_append_singleton, ih (n / 10) (by omega),
        digitVal_digitChar _ (Nat.mod_lt _ (by norm_num))]
      omega

theorem decValue_decimalNat (n : Nat) : decValue (decimalNat n) = n :=
  decValue_utoa (n + 1) n (Nat.lt_succ_self n)

theorem decimalNat_injective (a b : Nat) (h : decimalNat a = decimalNat b) : a = b := by
  have := congrArg decValue h
  simpa [decValue_decimalNat] using this

theorem decimalNat_isDigit (n : Nat) : ∀ c ∈ decimalNat n, c.isDigit = true :=
  utoa_isDigit (n + 1) n

theorem fmt_d_chars (v : Int) : ∀ c ∈ fmt_d v, c = '-' ∨ c.isDigit = true := by
  intro c hc
  cases v with
  | ofNat n => exact Or.inr (decimalNat_isDigit n c hc)
  | negSucc n =>
    rcases List.mem_cons.1 hc with e | m
    · exact Or.inl e
    · exact Or.inr (decimalNat_isDigit _ c m)

theorem space_not_mem_fmt_d (v : Int) : ' ' ∉ fmt_d v := by
  intro h
  rcases fmt_d_chars v _ h with e | e
  · exact absurd e (by decide)
  · exact absurd e (by decide)

theorem newline_not_mem_fmt_d (v : Int) : '\n' ∉ fmt_d v := by
  intro h
  rcases fmt_d_chars v _ h with e | e
  · exact absurd e (by decide)
  · exact absurd e (by decide)

theorem fmt_d_injective (a b : Int) (h : fmt_d a = fmt_d b) : a = b := by
  cases a with
  | ofNat m =>
    cases b with
    | ofNat n => exact congrArg Int.ofNat (decimalNat_injective m n h)
    | negSucc n =>
      exfalso
      have hm : '-' ∈ decimalNat m := by
        simp only [fmt_d] at h
        rw [h]
        exact List.mem_cons_self _ _
      exact absurd (decimalNat_isDigit m _ hm) (by decide)
  | negSucc m =>
    cases b with
    | ofNat n =>
      exfalso
      have hm : '-' ∈ decimalNat n := by
        simp only [fmt_d] at h
        rw [← h]
        exact List.mem_cons_self _ _
      exact absurd (decimalNat_isDigit n _ hm) (by decide)
    | negSucc n =>
      simp only [fmt_d, List.cons.injEq, true_and] at h
      have := decimalNat_injective _ _ h
      have hmn : m = n := by omega
      rw [hmn]

/-! ## Splitting a line at its separators -/

theorem append_sep_inj (sep : Char) (a b x y : List Char) (ha : sep ∉ a) (hb : sep ∉ b)
    (h : a ++ sep :: x = b ++ sep :: y) : a = b ∧ x = y := by
  induction a generalizing b with
  | nil =>
    cases b with
    | nil => simpa using h
    | cons d ds =>
      simp only [List.nil_append, List.cons_append, List.cons.injEq] at h
      exact absurd (h.1 ▸ List.mem_cons_self _ _) hb
  | cons c cs ih =>
    cases b with
    | nil =>
      simp only [List.nil_append, List.cons_append, List.cons.injEq] at h
      exact absurd (h.1 ▸ List.mem_cons_self _ _) ha
    | cons d ds =>
      simp only [List.cons_append, List.cons.injEq] at h
      have hcs : sep ∉ cs := fun m => ha (List.mem_cons_of_mem _ m)
      have hds : sep ∉ ds := fun m => hb (List.mem_cons_of_mem _ m)
      obtain ⟨e1, e2⟩ := ih ds hcs hds h.2
      exact ⟨by rw [h.1, e1], e2⟩

theorem identityLine_injective (r1 n1 r2 n2 : Int) (h1 h2 : List Char)
    (h : identityLine r1 n1 h1 = identityLine r2 n2 h2) :
    r1 = r2 ∧ n1 = n2 ∧ h1 = h2 := by
  simp only [identityLine, String.toList, List.append_assoc, List.cons_append,
    List.nil_append, List.cons.injEq, true_and] at h
  obtain ⟨e1, h⟩ := append_sep_inj ' ' _ _ _ _ (space_not_mem_fmt_d r1)
    (space_not_mem_fmt_d r2) h
  simp only [List.cons.injEq, true_and] at h
  obtain ⟨e2, h⟩ := append_sep_inj ' ' _ _ _ _ (space_not_mem_fmt_d n1)
    (space_not_mem_fmt_d n2) h
  simp only [List.cons.injEq, true_and] at h
  have e3 : h1 = h2 := List.append_cancel_right h
  exact ⟨fmt_d_injective _ _ e1, fmt_d_injective _ _ e2, e3⟩

/-! ## The host-name buffer -/

theorem hostBuffer_eq (env : Env) :
    hostBuffer env = gethostnameBytes env 256 ++
      (uninitArray env 256).drop (gethostnameBytes env 256).length := rfl

theorem returnedName_of_fits (env : Env) (hnul : NUL ∉ env.hostName)
    (hfit : env.hostName.length + 1 ≤ 256) : returnedName env = some env.hostName := by
  unfold returnedName
  rw [hostBuffer_eq]
  simp only [gethostnameBytes, hfit, if_true, List.append_assoc, List.singleton_append]
  exact cstr_append_NUL _ _ hnul

theorem not_mem_take (k : Nat) (l : List Char) (hnul : NUL ∉ l) : NUL ∉ l.take k :=
  fun m => hnul (List.mem_of_mem_take m)

theorem returnedName_of_terminated (env : Env) (hnul : NUL ∉ env.hostName)
    (hlong : 255 < env.hostName.length) (ht : env.truncTerminated = true) :
    returnedName env = some (env.hostName.take 255) := by
  unfold returnedName
  rw [hostBuffer_eq]
  have hnf : ¬ (env.hostName.length + 1 ≤ 256) := by omega
  simp only [gethostnameBytes, hnf, if_false, ht, if_true, List.append_assoc,
    List.singleton_append]
  exact cstr_append_NUL _ _ (not_mem_take _ _ hnul)

theorem gethostnameBytes_length_le (env : Env) (len : Nat) :
    (gethostnameBytes env len).length ≤ len := by
  unfold gethostnameBytes
  split
  · simpa using ‹env.hostName.length + 1 ≤ len›
  · split
    · cases len with
      | zero => simp
      | succ k =>
        simp only [List.length_append, List.length_take, List.length_singleton]
        omega
    · simp only [List.length_take]
      omega

theorem hostBuffer_length (env : Env) : (hostBuffer env).length = 256 := by
  have hle := gethostnameBytes_length_le env 256
  rw [hostBuffer_eq, List.length_append, List.length_drop]
  simp only [uninitArray, List.length_map, List.length_range]
  omega

theorem hostBuffer_of_unterminated (env : Env) (hlong : 255 < env.hostName.length)
    (ht : env.truncTerminated = false) : hostBuffer env = env.hostName.take 256 := by
  have hnf : ¬ (env.hostName.length + 1 ≤ 256) := by omega
  have hb : gethostnameBytes env 256 = env.hostName.take 256 := by
    simp [gethostnameBytes, hnf, ht]
  have hl : (env.hostName.take 256).length = 256 := by
    rw [List.length_take]
    omega
  rw [hostBuffer_eq, hb, hl]
  simp [uninitArray]

theorem returnedName_of_unterminated (env : Env) (hnul : NUL ∉ env.hostName)
    (hlong : 255 < env.hostName.length) (ht : env.truncTerminated = false) :
    returnedName env = none := by
  unfold returnedName
  rw [hostBuffer_of_unterminated env hlong ht]
  exact cstr_eq_none _ (not_mem_take _ _ hnul)

theorem main_stdout_of_returned (env : Env) (h : List Char)
    (hret : returnedName env = some h) :
    stdout (main env) = [some (identityLine env.rank env.size h)] := by
  rw [main_stdout, hret]
  rfl

theorem fmt_d_signed (v : Int) :
    fmt_d v = if v < 0 then '-' :: decimalNat v.natAbs else decimalNat v.natAbs := by
  cases v with
  | ofNat n =>
    have hn : ¬ (Int.ofNat n < 0) := Int.not_lt.2 (Int.ofNat_nonneg n)
    rw [if_neg hn]
    rfl
  | negSucc n =>
    rw [if_pos (Int.negSucc_lt_zero n)]
    rfl

theorem identityLine_eq_concat (r n : Int) (h : List Char) :
    identityLine r n h =
      ("Hello from rank ".toList ++ fmt_d r ++ " out of ".toList ++ fmt_d n ++
        " processors on ".toList ++ h) ++ ['\n'] := rfl

theorem newline_not_mem_body (r n : Int) (h : List Char) (hnl : '\n' ∉ h) :
    '\n' ∉ "Hello from rank ".toList ++ fmt_d r ++ " out of ".toList ++ fmt_d n ++
        " processors on ".toList ++ h := by
  intro hm
  simp only [List.mem_append] at hm
  rcases hm with ((((m | m) | m) | m) | m) | m
  · exact absurd m (by decide)
  · exact newline_not_mem_fmt_d r m
  · exact absurd m (by decide)
  · exact newline_not_mem_fmt_d n m
  · exact absurd m (by decide)
  · exact hnl m

/-! ## A group of processes -/

theorem groupOutput_eq_map (envs : List Env) :
    groupOutput envs =
      envs.map (fun e => (returnedName e).map (identityLine e.rank e.size)) := by
  induction envs with
  | nil => rfl
  | cons e es ih =>
    have hcons : groupOutput (e :: es) = stdout (main e) ++ groupOutput es := by
      simp [groupOutput]
    rw [hcons, ih, main_stdout]
    rfl

set_option maxRecDepth 100000

/-- C1: for every rank, size (any integers, so every C `int`) and every host
name that contains no null byte and fits the 256-byte buffer with its
terminator, the host-name query returns that name and `main` writes to
standard output exactly the text `Hello from rank <rank> out of <size>
processors on <host>` followed by a newline, with rank and size in decimal. -/
theorem main_writes_identity_line (env : Env) (hnul : NUL ∉ env.hostName)
    (hfit : env.hostName.length + 1 ≤ 256) :
    returnedName env = some env.hostName ∧
    stdout (main env) =
      [some ("Hello from rank ".toList ++ fmt_d env.rank ++ " out of ".toList ++
        fmt_d env.size ++ " processors on ".toList ++ env.hostName ++ "\n".toList)] :=
  ⟨returnedName_of_fits env hnul hfit,
    main_stdout_of_returned env _ (returnedName_of_fits env hnul hfit)⟩

/-- Witness of C1: rank 1 of 3 on host `node01`. -/
theorem main_writes_identity_line_witness :
    (NUL ∉ (node01Env 1 3).hostName ∧ (node01Env 1 3).hostName.length + 1 ≤ 256) ∧
    returnedName (node01Env 1 3) = some "node01".toList ∧
    stdout (main (node01Env 1 3)) =
      [some "Hello from rank 1 out of 3 processors on node01\n".toList] :=
  ⟨⟨by decide, by decide⟩, main_writes_identity_line (node01Env 1 3) (by decide) (by decide)⟩

/-- C2: exactly-once emission.  Every run of `main` (whatever status the join
returned) performs exactly one write, and that one write goes to standard
output: no other call of the run writes to any channel.  Whenever the
host-name query returned a name `h`, the text of that write is the identity
line `Hello from rank <rank> out of <size> processors on <h>` with its
newline, so the process emits the identity line once, neither zero times nor
more; and when `h` contains no newline that text is exactly one line: it ends
with a newline and contains no other newline. -/
theorem main_emits_exactly_one_line (env : Env) :
    (stdout (main env)).length = 1 ∧
    (main env).trace.filterMap outputChannel = [Channel.stdout] ∧
    ∀ h : List Char, returnedName env = some h →
      stdout (main env) =
        [some ("Hello from rank ".toList ++ fmt_d env.rank ++ " out of ".toList ++
          fmt_d env.size ++ " processors on ".toList ++ h ++ "\n".toList)] ∧
      (stdout (main env)).count (some (identityLine env.rank env.size h)) = 1 ∧
      ('\n' ∉ h →
        (identityLine env.rank env.size h).getLast? = some '\n' ∧
        '\n' ∉ (identityLine env.rank env.size h).dropLast ∧
        (identityLine env.rank env.size h).count '\n' = 1) := by
  refine ⟨by rw [main_stdout]; rfl, by rw [main_trace]; rfl, ?_⟩
  intro h hret
  refine ⟨main_stdout_of_returned env h hret, ?_, ?_⟩
  · rw [main_stdout_of_returned env h hret]
    simp
  · intro hnl
    refine ⟨?_, ?_, ?_⟩
    · rw [identityLine_eq_concat, List.getLast?_concat]
    · rw [identityLine_eq_concat, List.dropLast_concat]
      exact newline_not_mem_body _ _ _ hnl
    · rw [identityLine_eq_concat, List.count_append,
        List.count_eq_zero_of_not_mem (newline_not_mem_body _ _ _ hnl)]
      rfl

/-- Witness of C2: rank 2 of 3 on host `node01` writes the literal line once,
to standard output only. -/
theorem main_emits_exactly_one_line_witness :
    (returnedName (node01Env 2 3) = some node01 ∧ '\n' ∉ node01) ∧
    (main (node01Env 2 3)).trace.filterMap outputChannel = [Channel.stdout] ∧
    stdout (main (node01Env 2 3)) =
      [some "Hello from rank 2 out of 3 processors on node01\n".toList] ∧
    (stdout (main (node01Env 2 3))).count
      (some "Hello from rank 2 out of 3 processors on node01\n".toList) = 1 ∧
    "Hello from rank 2 out of 3 processors on node01\n".toList.getLast? = some '\n' ∧
    '\n' ∉ "Hello from rank 2 out of 3 processors on node01\n".toList.dropLast ∧
    "Hello from rank 2 out of 3 processors on node01\n".toList.count '\n' = 1 :=
  ⟨⟨by decide, by decide⟩,
    (main_emits_exactly_one_line (node01Env 2 3)).2.1,
    ((main_emits_exactly_one_line (node01Env 2 3)).2.2 node01 (by decide)).1,
    ((main_emits_exactly_one_line (node01Env 2 3)).2.2 node01 (by decide)).2.1,
    ((main_emits_exactly_one_line (node01Env 2 3)).2.2 node01 (by decide)).2.2 (by decide)⟩

/-- Counterexample to C3: `MPI_Init` returns the failure status `1`, and `main`
still writes the identity line and returns 0; it neither returns a non-zero
code nor stays silent. -/
theorem failed_join_still_reports :
    initFailsEnv.initStatus ≠ 0 ∧
    (main initFailsEnv).exit = 0 ∧
    stdout (main initFailsEnv) =
      [some "Hello from rank 0 out of 1 processors on node01\n".toList] ∧
    ¬ ((main initFailsEnv).exit ≠ 0 ∧ stdout (main initFailsEnv) = []) := by
  decide

/-- C3, amended: when `MPI_Init` returns a failure status, `main` does not
abort: it goes on with the same five calls as after a successful join, writes
the identity line whenever the host-name query returned a name, and returns
exit code 0. -/
theorem failed_join_is_ignored (env : Env) (_hfail : env.initStatus ≠ 0) :
    (main env).exit = 0 ∧
    (main env).trace = (main (withStatus env 0 env.finalizeStatus)).trace ∧
    (∃ text, (main env).trace =
      [Op.MPI_Init, Op.MPI_Comm_rank, Op.MPI_Comm_size, Op.gethostname,
        Op.printf text, Op.MPI_Finalize]) ∧
    ∀ h : List Char, returnedName env = some h →
      stdout (main env) = [some (identityLine env.rank env.size h)] :=
  ⟨rfl, rfl, ⟨_, main_trace env⟩, fun h hret => main_stdout_of_returned env h hret⟩

/-- Witness of C3, amended: rank 0 of 1 on `node01`, `MPI_Init` returning 1. -/
theorem failed_join_is_ignored_witness :
    initFailsEnv.initStatus ≠ 0 ∧
    (main initFailsEnv).exit = 0 ∧
    (∃ text, (main initFailsEnv).trace =
      [Op.MPI_Init, Op.MPI_Comm_rank, Op.MPI_Comm_size, Op.gethostname,
        Op.printf text, Op.MPI_Finalize]) ∧
    returnedName initFailsEnv = some node01 ∧
    stdout (main initFailsEnv) = [some (identityLine 0 1 node01)] :=
  ⟨by decide, (failed_join_is_ignored initFailsEnv (by decide)).1,
    (failed_join_is_ignored initFailsEnv (by decide)).2.2.1, by decide,
    (failed_join_is_ignored initFailsEnv (by decide)).2.2.2 node01 (by decide)⟩

/-- C4: for every run of `main` the trace of external calls is exactly
`MPI_Init`, `MPI_Comm_rank`, `MPI_Comm_size`, `gethostname`, `printf`,
`MPI_Finalize`, each once and in this order: the join is the first call, the
leave is the last call and happens exactly once. -/
theorem main_trace_is_linear (env : Env) :
    (∃ text, (main env).trace =
      [Op.MPI_Init, Op.MPI_Comm_rank, Op.MPI_Comm_size, Op.gethostname,
        Op.printf text, Op.MPI_Finalize]) ∧
    (main env).trace.head? = some Op.MPI_Init ∧
    (main env).trace.getLast? = some Op.MPI_Finalize ∧
    (main env).trace.count Op.MPI_Init = 1 ∧
    (main env).trace.count Op.MPI_Finalize = 1 := by
  rw [main_trace]
  refine ⟨⟨_, rfl⟩, rfl, rfl, ?_, ?_⟩ <;> simp

/-- Counterexample to C6: a host name of exactly 256 characters is not
reported verbatim, and a host name of 257 characters is not reported as its
first 256 characters.  The 256-byte array cannot hold 256 characters and a
terminator: when the environment terminates the truncated name the host field
is the first 255 characters, and when it does not the array holds no C string
and the text of the write is not defined. -/
theorem host_name_of_256_not_verbatim :
    ((longNameEnv 256 true).hostName.length ≤ 256 ∧
      stdout (main (longNameEnv 256 true)) =
        [some (identityLine 0 1 (List.replicate 255 'a'))] ∧
      stdout (main (longNameEnv 256 true)) ≠
        [some (identityLine 0 1 (longNameEnv 256 true).hostName)] ∧
      stdout (main (longNameEnv 256 false)) = [none]) ∧
    (256 < (longNameEnv 257 true).hostName.length ∧
      stdout (main (longNameEnv 257 true)) =
        [some (identityLine 0 1 (List.replicate 255 'a'))] ∧
      stdout (main (longNameEnv 257 true)) ≠
        [some (identityLine 0 1 ((longNameEnv 257 true).hostName.take 256))] ∧
      stdout (main (longNameEnv 257 false)) = [none]) := by
  decide

/-- C6, amended: the array of 256 bytes holds a name of at most 255 characters
with its terminator.  For every host name (without a null byte) of at most 255
characters the written line carries the host name verbatim; for every longer
host name, when the environment null-terminates the truncated result, the host
field is exactly the first 255 characters of the name; and `main` returns 0
in every case. -/
theorem host_name_boundary_255 (env : Env) (hnul : NUL ∉ env.hostName) :
    (main env).exit = 0 ∧
    (env.hostName.length ≤ 255 →
      stdout (main env) = [some (identityLine env.rank env.size env.hostName)]) ∧
    (255 < env.hostName.length → env.truncTerminated = true →
      stdout (main env) =
        [some (identityLine env.rank env.size (env.hostName.take 255))]) := by
  refine ⟨rfl, ?_, ?_⟩
  · intro hfit
    exact main_stdout_of_returned env _ (returnedName_of_fits env hnul (by omega))
  · intro hlong ht
    exact main_stdout_of_returned env _ (returnedName_of_terminated env hnul hlong ht)

/-- Witness of C6, amended: a name of exactly 255 characters is reported
verbatim, and a name of 256 characters, in an environment that terminates the
truncated result, is reported as its first 255 characters. -/
theorem host_name_boundary_255_witness :
    (NUL ∉ (longNameEnv 255 false).hostName ∧ (longNameEnv 255 false).hostName.length ≤ 255 ∧
      stdout (main (longNameEnv 255 false)) =
        [some (identityLine 0 1 (List.replicate 255 'a'))]) ∧
    (NUL ∉ (longNameEnv 256 true).hostName ∧ 255 < (longNameEnv 256 true).hostName.length ∧
      (longNameEnv 256 true).truncTerminated = true ∧
      stdout (main (longNameEnv 256 true)) =
        [some (identityLine 0 1 ((List.replicate 256 'a').take 255))]) :=
  ⟨⟨by decide, by decide,
      (host_name_boundary_255 (longNameEnv 255 false) (by decide)).2.1 (by decide)⟩,
    ⟨by decide, by decide, rfl,
      (host_name_boundary_255 (longNameEnv 256 true) (by decide)).2.2 (by decide) rfl⟩⟩

/-- C7: the end-to-end scenario.  Three processes whose ranks are 0, 1 and 2
(in any order), each with size 3 and host name `node01`, whatever else their
environments hold, write exactly the three lines `Hello from rank 0 out of 3
processors on node01`, `... rank 1 ...` and `... rank 2 ...` (each with its
newline), in the order the processes run; and every run of `main`, in any
environment, returns exit code 0. -/
theorem scenario_three_on_node01 :
    (∀ envs : List Env, (envs.map (fun e => e.rank)).Perm [0, 1, 2] →
      (∀ e ∈ envs, e.size = 3 ∧ e.hostName = node01) →
      (groupOutput envs).Perm
        [some "Hello from rank 0 out of 3 processors on node01\n".toList,
         some "Hello from rank 1 out of 3 processors on node01\n".toList,
         some "Hello from rank 2 out of 3 processors on node01\n".toList]) ∧
    (∀ env : Env, (main env).exit = 0) := by
  refine ⟨?_, fun _ => rfl⟩
  intro envs hranks hall
  have hmap : groupOutput envs =
      (envs.map (fun e => e.rank)).map (fun r => some (identityLine r 3 node01)) := by
    rw [groupOutput_eq_map, List.map_map]
    refine List.map_congr_left ?_
    intro e he
    obtain ⟨hs, hh⟩ := hall e he
    have hret : returnedName e = some node01 := by
      have := returnedName_of_fits e (by rw [hh]; decide) (by rw [hh]; decide)
      rw [this, hh]
    simp only [Function.comp, hret, hs, Option.map_some']
  rw [hmap]
  exact hranks.map _

/-- Witness of C7: the three processes run in the order 2, 0, 1. -/
theorem scenario_three_on_node01_witness :
    ((groupOfThree.map (fun e => e.rank)).Perm [0, 1, 2] ∧
      (∀ e ∈ groupOfThree, e.size = 3 ∧ e.hostName = node01)) ∧
    (groupOutput groupOfThree).Perm
      [some "Hello from rank 0 out of 3 processors on node01\n".toList,
       some "Hello from rank 1 out of 3 processors on node01\n".toList,
       some "Hello from rank 2 out of 3 processors on node01\n".toList] :=
  ⟨⟨by decide, by decide⟩,
    scenario_three_on_node01.1 groupOfThree (by decide) (by decide)⟩

/-- C8: `main` does not look at the status returned by `MPI_Init` or by
`MPI_Finalize`: for every pair of status values the trace of calls, the text
written and the exit code are those of the run in which both return
`MPI_SUCCESS` (0), and the exit code is 0. -/
theorem statuses_are_ignored (env : Env) (a b : Int) :
    (main (withStatus env a b)).trace = (main (withStatus env 0 0)).trace ∧
    stdout (main (withStatus env a b)) = stdout (main (withStatus env 0 0)) ∧
    (main (withStatus env a b)).exit = (main (withStatus env 0 0)).exit ∧
    (main (withStatus env a b)).exit = 0 ∧
    withStatus env env.initStatus env.finalizeStatus = env :=
  ⟨rfl, rfl, rfl, rfl, rfl⟩

/-- C9: the line `printf` formats is an injective function of its inputs:
when the two arrays hold the host names `h1` and `h2` and the text formatted
from `(r1, n1, h1)` equals the text formatted from `(r2, n2, h2)`, then
`r1 = r2`, `n1 = n2` and `h1 = h2`. -/
theorem identity_line_determines_inputs (r1 n1 r2 n2 : Int) (buf1 buf2 h1 h2 : List Char)
    (hb1 : cstr buf1 = some h1) (hb2 : cstr buf2 = some h2)
    (heq : vprintf FORMAT [Arg.int r1, Arg.int n1, Arg.str buf1] =
      vprintf FORMAT [Arg.int r2, Arg.int n2, Arg.str buf2]) :
    r1 = r2 ∧ n1 = n2 ∧ h1 = h2 := by
  rw [vprintf_FORMAT, vprintf_FORMAT, hb1, hb2] at heq
  exact identityLine_injective _ _ _ _ _ _ (Option.some.inj heq)

/-- Witness of C9: two different arrays that hold the same name. -/
theorem identity_line_determines_inputs_witness :
    (cstr ("node01".toList ++ NUL :: "xyz".toList) = some node01 ∧
      cstr ("node01".toList ++ NUL :: "abc".toList) = some "node01".toList ∧
      vprintf FORMAT [Arg.int 1, Arg.int 3, Arg.str ("node01".toList ++ NUL :: "xyz".toList)] =
        vprintf FORMAT [Arg.int 1, Arg.int 3,
          Arg.str ("node01".toList ++ NUL :: "abc".toList)]) ∧
    ((1 : Int) = 1 ∧ (3 : Int) = 3 ∧ node01 = "node01".toList) :=
  ⟨⟨by decide, by decide, by decide⟩,
    identity_line_determines_inputs 1 3 1 3 ("node01".toList ++ NUL :: "xyz".toList)
      ("node01".toList ++ NUL :: "abc".toList) node01 "node01".toList
      (by decide) (by decide) (by decide)⟩

/-- C10: `main` validates nothing it gets from the runtime: for every rank
and size (any integers, so every C `int`: a negative rank, a rank not below
the size, a size that is not positive), whenever the host-name query returned
a name, it writes the line with both values in signed decimal, a leading `-`
before the digits of a negative value, and returns 0. -/
theorem runtime_values_are_not_validated (env : Env) (h : List Char)
    (hret : returnedName env = some h) :
    stdout (main env) =
      [some ("Hello from rank ".toList ++
        (if env.rank < 0 then '-' :: decimalNat env.rank.natAbs
          else decimalNat env.rank.natAbs) ++
        " out of ".toList ++
        (if env.size < 0 then '-' :: decimalNat env.size.natAbs
          else decimalNat env.size.natAbs) ++
        " processors on ".toList ++ h ++ "\n".toList)] ∧
    (main env).exit = 0 := by
  refine ⟨?_, rfl⟩
  rw [main_stdout_of_returned env h hret, ← fmt_d_signed, ← fmt_d_signed]
  rfl

/-- Witness of C10: rank -1 in a group of size -2. -/
theorem runtime_values_are_not_validated_witness :
    (returnedName outOfRangeEnv = some node01 ∧ outOfRangeEnv.rank < 0 ∧
      outOfRangeEnv.size ≤ outOfRangeEnv.rank ∧ outOfRangeEnv.size ≤ 0) ∧
    stdout (main outOfRangeEnv) =
      [some "Hello from rank -1 out of -2 processors on node01\n".toList] ∧
    (main outOfRangeEnv).exit = 0 :=
  ⟨⟨by decide, by decide, by decide, by decide⟩,
    runtime_values_are_not_validated outOfRangeEnv node01 (by decide)⟩

end HelloMpi
